/-
Verification of the statistical analysis core of the `bankfile.py`
personal-finance transaction analyzer (class `Bookkeeper`).

The embedding models a pandas DataFrame of transactions as a `List Record`;
float amounts are modelled as exact rationals `ℚ`, and the IEEE special
values NaN/±inf that pandas produces on empty aggregations and zero
divisions are modelled by the tagged type `PFloat`.  Dates are calendar
dates `(year, month, day)` compared lexicographically (as pandas compares
datetimes); `toOrdinal` is Python's `date.toordinal` (ordinal 1 =
0001-01-01, a Monday), used for the day-of-week and week-start labels.
-/
import Mathlib

/-- Calendar date, mirroring the `Date` column after `pd.to_datetime`
(no time component is used by the program). -/
structure Date where
  year : ℕ
  month : ℕ
  day : ℕ
deriving DecidableEq, Repr

/-- Gregorian leap-year test, as in Python's `calendar.isleap`. -/
def isLeap (y : ℕ) : Bool :=
  (y % 4 == 0 && y % 100 != 0) || (y % 400 == 0)

/-- Days strictly before month `m` (1-based) of year `y`. -/
def cumMonthDays (y m : ℕ) : ℕ :=
  let base := [0, 31, 59, 90, 120, 151, 181, 212, 243, 273, 304, 334]
  let v := base.getD (m - 1) 0
  if isLeap y && m > 2 then v + 1 else v

/-- Python's `date.toordinal`: day count with 0001-01-01 ↦ 1. -/
def toOrdinal (d : Date) : ℕ :=
  let n := d.year - 1
  n * 365 + n / 4 - n / 100 + n / 400 + cumMonthDays d.year d.month + d.day

/-- Weekday index with Monday ↦ 0, as Python's `date.weekday()`
(0001-01-01 is a Monday). -/
def weekdayIdx (d : Date) : ℕ :=
  (toOrdinal d + 6) % 7

/-- The fixed `days_list` of `day_of_week_summary`. -/
def daysList : List String :=
  ["Monday", "Tuesday", "Wednesday", "Thursday", "Friday", "Saturday", "Sunday"]

/-- `strftime("%A")`: the weekday name of a date. -/
def weekdayName (d : Date) : String :=
  daysList.getD (weekdayIdx d) ("")

/-- Lexicographic comparison of calendar dates: exactly how pandas
compares entries of the datetime `Date` column. -/
def dateLe (a b : Date) : Bool :=
  decide (a.year < b.year) ||
    (decide (a.year = b.year) &&
      (decide (a.month < b.month) ||
        (decide (a.month = b.month) && decide (a.day ≤ b.day))))

/-- One row of the transaction DataFrame after `__init__` drops the
`Labels`/`Notes` columns.  `Original Description` is never read by the
analysis methods and is omitted.  `ttype` is the raw `Transaction Type`
string (the code compares it with the literals "debit"/"credit"). -/
structure Record where
  date : Date
  description : String
  amount : ℚ
  ttype : String
  category : String
  account : String
deriving DecidableEq, Repr

/-- Float values as produced by pandas aggregations: a finite value, NaN
(empty mean/median/min/max, 0/0), or ±infinity (nonzero/0). -/
inductive PFloat where
  | num (x : ℚ)
  | nan
  | inf
  | ninf
deriving DecidableEq, Repr

/-- Insert into a ≤-sorted rational list, keeping it sorted. -/
def insertQ (x : ℚ) : List ℚ → List ℚ
  | [] => [x]
  | y :: ys => if decide (y ≤ x) then y :: insertQ x ys else x :: y :: ys

/-- Ascending sort of rationals (numpy's value sort, as used by
`quantile`, `median` and `groupby` key ordering). -/
def sortAscQ (l : List ℚ) : List ℚ :=
  l.foldl (fun acc x => insertQ x acc) []

/-- Floor of a rational, as a truncation-free integer (used for the
quantile interpolation index, where the argument is nonnegative). -/
def ratFloorNat (x : ℚ) : ℕ :=
  (Int.fdiv x.num (x.den : ℤ)).toNat

/-- Python's `int()` applied to a float: truncation toward zero. -/
def pyInt (x : ℚ) : ℤ :=
  Int.tdiv x.num (x.den : ℤ)

/-- Round half to even to an integer (Python 3 `round` on exact values). -/
def roundHalfEven (y : ℚ) : ℤ :=
  let f := Int.fdiv y.num (y.den : ℤ)
  let r := y - (f : ℚ)
  if r < 1 / 2 then f else if 1 / 2 < r then f + 1
  else if f % 2 = 0 then f else f + 1

/-- Python's `round(x, 2)`, idealized to exact arithmetic. -/
def round2 (x : ℚ) : ℚ :=
  (roundHalfEven (x * 100) : ℚ) / 100

/-- `round(·, 2)` lifted to pandas floats: NaN and ±inf pass through. -/
def pround2 : PFloat → PFloat
  | .num x => .num (round2 x)
  | v => v

/-- `Series.mean()`: NaN on an empty series. -/
def pmean (l : List ℚ) : PFloat :=
  if l.isEmpty then .nan else .num (l.sum / (l.length : ℚ))

/-- `Series.median()`: NaN on empty; midpoint of the two central order
statistics on even length. -/
def pmedian (l : List ℚ) : PFloat :=
  let s := sortAscQ l
  let n := s.length
  if n = 0 then .nan
  else if n % 2 = 1 then .num (s.getD (n / 2) 0)
  else .num ((s.getD (n / 2 - 1) 0 + s.getD (n / 2) 0) / 2)

/-- `Series.min()`: NaN on an empty series. -/
def pminimum (l : List ℚ) : PFloat :=
  match l with
  | [] => .nan
  | x :: xs => .num (xs.foldl (fun a b => if b < a then b else a) x)

/-- `Series.max()`: NaN on an empty series. -/
def pmaximum (l : List ℚ) : PFloat :=
  match l with
  | [] => .nan
  | x :: xs => .num (xs.foldl (fun a b => if a < b then a else b) x)

/-- The date-range mask used by every method:
`(Date <= end_date) & (Date >= start_date)`, both bounds inclusive. -/
def filterDates (recs : List Record) (s e : Date) : List Record :=
  recs.filter (fun r => dateLe s r.date && dateLe r.date e)

/-- `min(self.transactions["Date"])`: Python's `min` over the date column,
computed once in `__init__` and stored as `self.earliest`. -/
def minDate : List Date → Date
  | [] => ⟨0, 0, 0⟩
  | d :: ds => ds.foldl (fun a b => if dateLe b a ∧ ¬dateLe a b then b else a) d

/-- `max(self.transactions["Date"])`, stored as `self.latest`. -/
def maxDate : List Date → Date
  | [] => ⟨0, 0, 0⟩
  | d :: ds => ds.foldl (fun a b => if dateLe a b ∧ ¬dateLe b a then b else a) d

/-- Date filter with the sentinel defaults of every `Bookkeeper` method:
an omitted `start_date`/`end_date` falls back to `self.earliest` /
`self.latest` of the record set itself. -/
def filterWithDefaults (recs : List Record) (s e : Option Date) : List Record :=
  filterDates recs (s.getD (minDate (recs.map (·.date))))
    (e.getD (maxDate (recs.map (·.date))))

/-- `DataFrame.quantile(q, interpolation = linear)` applied to the
`Amount` column (the only numeric column): linear interpolation between
the order statistics bracketing rank `q * (n - 1)`.  Only evaluated on
nonempty input (on empty input pandas yields NaN and the caller's strict
comparisons with NaN are all false, handled separately). -/
def quantileLin (l : List ℚ) (q : ℚ) : ℚ :=
  let s := sortAscQ l
  let n := s.length
  let h := q * ((n : ℚ) - 1)
  let f := ratFloorNat h
  let a := s.getD f 0
  let b := s.getD (f + 1) a
  a + (h - (f : ℚ)) * (b - a)

/-- `q1 - 3*iqr`, the lower outer fence of `suspicious_charges`. -/
def lowerFence (recs : List Record) : ℚ :=
  let amounts := recs.map (·.amount)
  let q1 := quantileLin amounts (1 / 4)
  let q3 := quantileLin amounts (3 / 4)
  q1 - 3 * (q3 - q1)

/-- `q3 + 3*iqr`, the upper outer fence of `suspicious_charges`. -/
def upperFence (recs : List Record) : ℚ :=
  let amounts := recs.map (·.amount)
  let q1 := quantileLin amounts (1 / 4)
  let q3 := quantileLin amounts (3 / 4)
  q3 + 3 * (q3 - q1)

/-- The boolean mask of `suspicious_charges`:
`(Amount < lower) | (Amount > upper) & (Transaction Type == "debit")`.
Python's `&` binds tighter than `|`, so the debit condition attaches to
the upper-fence comparison only.  On an empty input set the fences are
NaN and every strict comparison is false. -/
def flagPred (recs : List Record) (r : Record) : Bool :=
  if recs.isEmpty then false
  else
    decide (r.amount < lowerFence recs) ||
      (decide (upperFence recs < r.amount) && (r.ttype == "debit"))

/-- The rows selected by the outlier mask of `suspicious_charges`. -/
def flaggedSet (recs : List Record) : List Record :=
  recs.filter (flagPred recs)

/-- `drop_duplicates(subset = "Description", keep = False)`: keep only
rows whose `Description` value occurs exactly once in the frame. -/
def dropDupDesc (l : List Record) : List Record :=
  l.filter (fun r =>
    ((l.filter (fun s => s.description == r.description)).length) == 1)

/-- The suspicious-charge result for one account's filtered records:
outlier flagging followed by the duplicate-description drop. -/
def suspiciousCharges (recs : List Record) : List Record :=
  dropDupDesc (flaggedSet recs)

/-- `Series.unique()`: distinct values in order of first occurrence. -/
def uniqueFirst (seen : List String) : List String → List String
  | [] => []
  | x :: xs =>
    if x ∈ seen then uniqueFirst seen xs
    else x :: uniqueFirst (x :: seen) xs

/-- The `account is None` branch of `suspicious_charges`: iterate over
`self.transactions["Account Name"].unique()` and, for each account,
filter the store to that account and the date range, compute that
subset's own fences, flag, and drop duplicate descriptions. -/
def suspiciousAllAccounts (recs : List Record) (s e : Date) :
    List (String × List Record) :=
  (uniqueFirst [] (recs.map (·.account))).map (fun a =>
    (a, suspiciousCharges (recs.filter (fun r =>
      (r.account == a) && (dateLe s r.date && dateLe r.date e)))))

/-- First-match association lookup (by account name). -/
def lookupStr (a : String) : List (String × List Record) → Option (List Record)
  | [] => none
  | (k, v) :: rest => if k == a then some v else lookupStr a rest

/-- The three-way classification printed by `financial_advice`. -/
inductive Verdict where
  | negative
  | zero
  | positive
deriving DecidableEq, Repr

/-- Core of `financial_advice` on the date-filtered records: pandas sums
the `Amount` of the debit rows and of the credit rows, each total is
passed through Python's `int()` (truncation toward zero), and
`net_total = int(credits) - int(debits)` selects the advice branch.
`int()` of an empty groupby result raises `TypeError`, modelled as
`none`. -/
def financialAdvice (recs : List Record) : Option (ℤ × Verdict) :=
  let credits := (recs.filter (fun r => r.ttype == "credit")).map (·.amount)
  let debits := (recs.filter (fun r => r.ttype == "debit")).map (·.amount)
  if credits.isEmpty || debits.isEmpty then none
  else
    let net := pyInt credits.sum - pyInt debits.sum
    some (net, if net < 0 then .negative else if net = 0 then .zero else .positive)

/-- String order used by `pd.crosstab`, which sorts its index (the
category labels) ascending. -/
def strLeB (a b : String) : Bool :=
  !decide (b < a)

/-- Insert into a name-sorted list of category labels. -/
def insertStr (x : String) : List String → List String
  | [] => [x]
  | y :: ys => if strLeB y x then y :: insertStr x ys else x :: y :: ys

/-- Remove adjacent duplicates of a sorted list. -/
def dedupAdj : List String → List String
  | [] => []
  | [x] => [x]
  | x :: y :: rest =>
    if x == y then dedupAdj (y :: rest) else x :: dedupAdj (y :: rest)

/-- The distinct category labels, name-ascending (the crosstab index). -/
def sortedCats (recs : List Record) : List String :=
  dedupAdj ((recs.map (·.category)).foldl (fun acc x => insertStr x acc) [])

/-- Number of records carrying a given category label. -/
def countCat (recs : List Record) (c : String) : ℕ :=
  (recs.filter (fun r => r.category == c)).length

/-- `pd.crosstab(index = df[Category], columns = count)`: one row per
distinct category (index sorted ascending) with its occurrence count. -/
def crosstabCounts (recs : List Record) : List (String × ℕ) :=
  (sortedCats recs).map (fun c => (c, countCat recs c))

/-- Insertion into a count-descending list.  `sort_values` uses an
unstable quicksort; the model uses a stable sort, so rows with equal
counts keep the crosstab's name-ascending order. -/
def insertDesc (x : String × ℕ) : List (String × ℕ) → List (String × ℕ)
  | [] => [x]
  | y :: ys => if x.2 ≤ y.2 then y :: insertDesc x ys else x :: y :: ys

/-- `sort_values(['count'], ascending = False)` on the crosstab rows. -/
def sortCountDesc (l : List (String × ℕ)) : List (String × ℕ) :=
  l.foldl (fun acc x => insertDesc x acc) []

/-- `spending_category_frequency` on the date-filtered records: the
count crosstab, sorted by count descending, truncated by `.head(5)`. -/
def spendingCategoryFrequency (recs : List Record) : List (String × ℕ) :=
  (sortCountDesc (crosstabCounts recs)).take 5

/-- Adjacent rows are in weakly decreasing count order. -/
def sortedByCountDesc : List (String × ℕ) → Bool
  | [] => true
  | [_] => true
  | x :: y :: rest => decide (y.2 ≤ x.2) && sortedByCountDesc (y :: rest)

/-- Python `str.lower()` on a character sequence (ASCII case folding,
which covers every string the program compares). -/
def lowerChars (l : List Char) : List Char :=
  l.map Char.toLower

/-- One token of the regular-expression pattern that
`Series.str.contains` (with its default `regex = True`) hands to
`re.search`.  The model covers the fragment of Python regex syntax
sufficient for the queries analysed here: literal characters and the
`.` wildcard; other metacharacters are excluded by hypothesis where the
model is used. -/
inductive RTok where
  | lit (c : Char)
  | dot
deriving DecidableEq, Repr

/-- Parse a query string into pattern tokens (`.` is the wildcard). -/
def parsePat (q : List Char) : List RTok :=
  q.map (fun c => if c == '.' then RTok.dot else RTok.lit c)

/-- Match a pattern against the front of the text. -/
def matchHere : List RTok → List Char → Bool
  | [], _ => true
  | _ :: _, [] => false
  | t :: ts, c :: cs =>
    (match t with
     | RTok.dot => true
     | RTok.lit x => x == c) && matchHere ts cs

/-- `re.search`: does the pattern match at some position of the text? -/
def reSearch (pat : List RTok) : List Char → Bool
  | [] => matchHere pat []
  | c :: cs => matchHere pat (c :: cs) || reSearch pat cs

/-- Is the first list a prefix of the second? -/
def prefixOfChars : List Char → List Char → Bool
  | [], _ => true
  | _ :: _, [] => false
  | a :: as, b :: bs => (a == b) && prefixOfChars as bs

/-- Literal (non-regex) substring containment, the match policy the
specification prescribes. -/
def containsSub (needle : List Char) : List Char → Bool
  | [] => prefixOfChars needle []
  | c :: cs => prefixOfChars needle (c :: cs) || containsSub needle cs

/-- `search_transactions` on the date-filtered records:
`df[df["Description"].str.lower().str.contains(desc.lower())]` — the
lowercased query is interpreted as a regex over the lowercased
descriptions. -/
def searchTransactions (recs : List Record) (q : String) : List Record :=
  recs.filter (fun r =>
    reSearch (parsePat (lowerChars q.toList)) (lowerChars r.description.toList))

/-- Insert into a date-sorted list. -/
def insertDate (x : Date) : List Date → List Date
  | [] => [x]
  | y :: ys => if dateLe y x then y :: insertDate x ys else x :: y :: ys

/-- Remove adjacent duplicate dates of a sorted list. -/
def dedupDates : List Date → List Date
  | [] => []
  | [x] => [x]
  | x :: y :: rest =>
    if x == y then dedupDates (y :: rest) else x :: dedupDates (y :: rest)

/-- `groupby("Date")` keys: the distinct dates, ascending. -/
def groupDates (recs : List Record) : List Date :=
  dedupDates ((recs.map (·.date)).foldl (fun acc x => insertDate x acc) [])

/-- `groupby("Date")["Amount"].sum()`: total amount per distinct date. -/
def dailyTotals (recs : List Record) : List ℚ :=
  (groupDates recs).map (fun d =>
    ((recs.filter (fun r => r.date == d)).map (·.amount)).sum)

/-- `groupby("Date")["Date"].count()`: transactions per distinct date
(as rationals, since pandas immediately takes their `mean`). -/
def dailyCounts (recs : List Record) : List ℚ :=
  (groupDates recs).map (fun d =>
    ((recs.filter (fun r => r.date == d)).length : ℚ))

/-- The five per-weekday columns of `day_of_week_summary`:
`Avg Transactions`, `Mean`, `Median`, `Minimum`, `Maximum`. -/
structure DayStats where
  avgT : PFloat
  mean : PFloat
  median : PFloat
  minv : PFloat
  maxv : PFloat
deriving DecidableEq, Repr

/-- `day_of_week_summary` on the date-filtered records: for each of the
seven fixed weekday names, round to 2 places the mean daily transaction
count and the mean/median/min/max of the daily `Amount` totals over the
records falling on that weekday.  When a weekday has no records every
aggregation is over an empty series and yields NaN. -/
def dayOfWeekSummary (recs : List Record) : List (String × DayStats) :=
  daysList.map (fun day =>
    let sub := recs.filter (fun r => weekdayName r.date == day)
    (day,
      { avgT := pround2 (pmean (dailyCounts sub))
        mean := pround2 (pmean (dailyTotals sub))
        median := pround2 (pmedian (dailyTotals sub))
        minv := pround2 (pminimum (dailyTotals sub))
        maxv := pround2 (pmaximum (dailyTotals sub)) }))

/-- The emptied-out weekday row: every statistic is NaN. -/
def nanStats : DayStats :=
  ⟨.nan, .nan, .nan, .nan, .nan⟩

/-- The three period granularities compared by `compare_spendings`. -/
inductive Gran where
  | week
  | month
  | year
deriving DecidableEq, Repr

/-- The grouping key of a record for a granularity, encoded as a natural
number whose order and equality agree with the code's keys: the `Week`
column is the date of the Monday starting the record's ISO week
(`i - timedelta(isocalendar weekday - 1)`, here as an ordinal), the
`Month` column is the `"%Y-%m"` string (here `year*12 + (month-1)`),
and the `Year` column is the `"%Y"` string (here the year itself). -/
def periodKey : Gran → Record → ℕ
  | .week, r => toOrdinal r.date - weekdayIdx r.date
  | .month, r => r.date.year * 12 + (r.date.month - 1)
  | .year, r => r.date.year

/-- Insert into an ascending list of naturals. -/
def insertNat (x : ℕ) : List ℕ → List ℕ
  | [] => [x]
  | y :: ys => if y ≤ x then y :: insertNat x ys else x :: y :: ys

/-- Remove adjacent duplicate naturals of a sorted list. -/
def dedupNats : List ℕ → List ℕ
  | [] => []
  | [x] => [x]
  | x :: y :: rest =>
    if x == y then dedupNats (y :: rest) else x :: dedupNats (y :: rest)

/-- `groupby(key)["Amount"].sum()`: the distinct period keys ascending
(groupby sorts its keys), each with its total amount. -/
def periodTotals (recs : List Record) (g : Gran) : List (ℕ × ℚ) :=
  (dedupNats ((recs.map (periodKey g)).foldl (fun acc x => insertNat x acc) []))
    |>.map (fun k =>
      (k, ((recs.filter (fun r => periodKey g r == k)).map (·.amount)).sum))

/-- One step of `Series.pct_change()`: `current/previous - 1` in float
arithmetic.  With `previous = 0` the float division yields ±infinity
(sign of `current`) or NaN when `current` is also zero — not an error
and not NaN-across-the-board. -/
def pctPair (p c : ℚ) : PFloat :=
  if p = 0 then (if 0 < c then .inf else if c < 0 then .ninf else .nan)
  else .num ((c - p) / p)

/-- Tail of the percent-change column: pairs each total with its
predecessor. -/
def pctTail (p : ℚ) : List ℚ → List PFloat
  | [] => []
  | c :: cs => pctPair p c :: pctTail c cs

/-- `Series.pct_change()` over the period totals: the first (earliest)
entry is NaN, every later entry compares against its predecessor. -/
def pctChangeCol : List ℚ → List PFloat
  | [] => []
  | t :: ts => .nan :: pctTail t ts

/-- `compare_spendings` for one granularity on the date-filtered
records: the chronologically ordered period totals adjoined with the
`Change` percent-change column. -/
def compareSpendings (recs : List Record) (g : Gran) : List (ℕ × ℚ × PFloat) :=
  let tt := periodTotals recs g
  List.zipWith (fun kt c => (kt.1, kt.2, c)) tt (pctChangeCol (tt.map (·.2)))

/-- The `Bookkeeper` state: the transaction DataFrame created in
`__init__` plus the derived `self.earliest` / `self.latest` bounds.
None of the analysis methods reassigns any of these attributes; every
method works on `self.transactions[date_filter]`, and pandas boolean
indexing yields a new frame, so column assignments inside a method
(`Day of Week`, `Week`, `Month`, `Year`) mutate only that copy. -/
structure Store where
  records : List Record
  earliest : Date
  latest : Date
deriving DecidableEq, Repr

/-- `__init__`: load the table and derive the date bounds. -/
def buildStore (recs : List Record) : Store :=
  ⟨recs, minDate (recs.map (·.date)), maxDate (recs.map (·.date))⟩

/-- `day_of_week_summary` as a state transformer: output plus the
`Bookkeeper` state as it stands after the call. -/
def dayOfWeekSummaryOp (s : Store) (sd ed : Option Date) :
    List (String × DayStats) × Store :=
  let df := filterDates s.records (sd.getD s.earliest) (ed.getD s.latest)
  (dayOfWeekSummary df, s)

/-- `compare_spendings` (one granularity) as a state transformer. -/
def compareSpendingsOp (s : Store) (g : Gran) (sd ed : Option Date) :
    List (ℕ × ℚ × PFloat) × Store :=
  let df := filterDates s.records (sd.getD s.earliest) (ed.getD s.latest)
  (compareSpendings df g, s)

/-- `spending_category_frequency` as a state transformer. -/
def spendingCategoryFrequencyOp (s : Store) (sd ed : Option Date) :
    List (String × ℕ) × Store :=
  let df := filterDates s.records (sd.getD s.earliest) (ed.getD s.latest)
  (spendingCategoryFrequency df, s)

/-- `search_transactions` as a state transformer. -/
def searchTransactionsOp (s : Store) (q : String) (sd ed : Option Date) :
    List Record × Store :=
  let df := filterDates s.records (sd.getD s.earliest) (ed.getD s.latest)
  (searchTransactions df q, s)

/-- `suspicious_charges` (no account given) as a state transformer. -/
def suspiciousChargesOp (s : Store) (sd ed : Option Date) :
    List (String × List Record) × Store :=
  (suspiciousAllAccounts s.records (sd.getD s.earliest) (ed.getD s.latest), s)

/-- The `Change` column of one `compare_spendings` table. -/
def changeCol (recs : List Record) (g : Gran) : List PFloat :=
  (compareSpendings recs g).map (·.2.2)

/-- The `Amount` (total) column of one `compare_spendings` table. -/
def totalsCol (recs : List Record) (g : Gran) : List ℚ :=
  (periodTotals recs g).map (·.2)

/-- Adjacent period keys are in weakly increasing (chronological) order. -/
def natSortedAsc : List ℕ → Bool
  | [] => true
  | [_] => true
  | x :: y :: rest => decide (x ≤ y) && natSortedAsc (y :: rest)

/-- Characters with a special meaning to Python's `re` module. -/
def metaChars : List Char :=
  ['.', '^', '$', '*', '+', '?', '\\', '[', ']', '(', ')', '\x7b', '\x7d', '|']

/-- The query contains no regex metacharacter, so `re.search` degenerates
to literal substring search. -/
def noMeta (l : List Char) : Bool :=
  l.all (fun c => !(metaChars.contains c))

/-- Shorthand for building one transaction row in concrete instances. -/
def mkR (d : Date) (desc : String) (amt : ℚ) (tt cat acct : String) : Record :=
  ⟨d, desc, amt, tt, cat, acct⟩

/-- Five debit charges on one account; the `-1000` charge sits strictly
below the lower outer fence of this set (both fences are 0). -/
def wRecsC1 : List Record :=
  [mkR ⟨2020, 4, 1⟩ ("a") 0 ("debit") ("Shopping") ("X"),
   mkR ⟨2020, 4, 1⟩ ("b") 0 ("debit") ("Shopping") ("X"),
   mkR ⟨2020, 4, 2⟩ ("e") 0 ("debit") ("Shopping") ("X"),
   mkR ⟨2020, 4, 3⟩ ("f") 0 ("debit") ("Shopping") ("X"),
   mkR ⟨2020, 4, 4⟩ ("g") (-1000) ("debit") ("Shopping") ("X")]

/-- The strong low outlier of `wRecsC1`. -/
def wRecC1 : Record :=
  mkR ⟨2020, 4, 4⟩ ("g") (-1000) ("debit") ("Shopping") ("X")

/-- Scenario C: credits summing 1000 and debits summing 1200. -/
def wRecsC2 : List Record :=
  [mkR ⟨2020, 4, 1⟩ ("pay") 1000 ("credit") ("Income") ("X"),
   mkR ⟨2020, 4, 2⟩ ("rent") 1200 ("debit") ("Home") ("X")]

/-- A non-integral credit total: exact net is 0.7 but `int()` truncation
collapses it to 0. -/
def cexRecsC2 : List Record :=
  [mkR ⟨2020, 4, 1⟩ ("pay") (100.7) ("credit") ("Income") ("X"),
   mkR ⟨2020, 4, 2⟩ ("rent") 100 ("debit") ("Home") ("X")]

/-- Scenario D: two consecutive months with totals 100 and 150. -/
def wRecsC5 : List Record :=
  [mkR ⟨2020, 1, 5⟩ ("a") 100 ("debit") ("Shopping") ("X"),
   mkR ⟨2020, 2, 5⟩ ("b") 150 ("debit") ("Shopping") ("X")]

/-- Two consecutive months whose earlier total is zero. -/
def cexRecsC5 : List Record :=
  [mkR ⟨2020, 1, 5⟩ ("a") 0 ("debit") ("Shopping") ("X"),
   mkR ⟨2020, 2, 5⟩ ("b") 100 ("debit") ("Shopping") ("X")]

/-- Six distinct categories, one transaction each. -/
def wRecsC7 : List Record :=
  [mkR ⟨2020, 4, 1⟩ ("x") 1 ("debit") ("A") ("X"),
   mkR ⟨2020, 4, 1⟩ ("x") 1 ("debit") ("B") ("X"),
   mkR ⟨2020, 4, 1⟩ ("x") 1 ("debit") ("C") ("X"),
   mkR ⟨2020, 4, 1⟩ ("x") 1 ("debit") ("D") ("X"),
   mkR ⟨2020, 4, 1⟩ ("x") 1 ("debit") ("E") ("X"),
   mkR ⟨2020, 4, 1⟩ ("x") 1 ("debit") ("F") ("X")]

/-- Scenario E: three records described "Spotify" in assorted cases plus
one "Spotify Premium". -/
def wRecsC8 : List Record :=
  [mkR ⟨2020, 4, 1⟩ ("Spotify") 10 ("debit") ("Entertainment") ("X"),
   mkR ⟨2020, 4, 1⟩ ("SPOTIFY") 10 ("debit") ("Entertainment") ("X"),
   mkR ⟨2020, 4, 2⟩ ("spotify") 10 ("debit") ("Entertainment") ("X"),
   mkR ⟨2020, 4, 2⟩ ("Spotify Premium") 10 ("debit") ("Entertainment") ("X")]

/-- A description the regex "a.c" matches but which does not contain the
literal substring "a.c". -/
def cexRecsC8 : List Record :=
  [mkR ⟨2020, 4, 1⟩ ("abc") 1 ("debit") ("Shopping") ("X")]

/-- Two accounts with very different charge profiles. -/
def wRecsC10 : List Record :=
  [mkR ⟨2020, 4, 1⟩ ("a") 0 ("debit") ("Shopping") ("X"),
   mkR ⟨2020, 4, 1⟩ ("h") 5000 ("debit") ("Shopping") ("Y"),
   mkR ⟨2020, 4, 1⟩ ("b") 0 ("debit") ("Shopping") ("X"),
   mkR ⟨2020, 4, 2⟩ ("e") 0 ("debit") ("Shopping") ("X"),
   mkR ⟨2020, 4, 3⟩ ("f") 0 ("debit") ("Shopping") ("X"),
   mkR ⟨2020, 4, 4⟩ ("g") (-1000) ("debit") ("Shopping") ("X")]

/-- Total `Amount` of the credit rows, the `credits` sum of
`financial_advice`. -/
def creditSum (recs : List Record) : ℚ :=
  ((recs.filter (fun r => r.ttype == "credit")).map (·.amount)).sum

/-- Total `Amount` of the debit rows, the `debits` sum of
`financial_advice`. -/
def debitSum (recs : List Record) : ℚ :=
  ((recs.filter (fun r => r.ttype == "debit")).map (·.amount)).sum

/-- `net_total = int(credits) - int(debits)`: both totals truncated
toward zero before subtracting. -/
def netTotal (recs : List Record) : ℤ :=
  pyInt (creditSum recs) - pyInt (debitSum recs)

theorem dateLe_iff (a b : Date) :
    dateLe a b = true ↔
      (a.year < b.year ∨ (a.year = b.year ∧
        (a.month < b.month ∨ (a.month = b.month ∧ a.day ≤ b.day)))) := by
  simp [dateLe]

theorem dateLe_refl (a : Date) : dateLe a a = true := by
  simp [dateLe_iff]

theorem dateLe_trans {a b c : Date} (h1 : dateLe a b = true)
    (h2 : dateLe b c = true) : dateLe a c = true := by
  rw [dateLe_iff] at *
  omega

theorem dateLe_total (a b : Date) : dateLe a b = true ∨ dateLe b a = true := by
  rw [dateLe_iff, dateLe_iff]
  omega

theorem dateLe_antisymm {a b : Date} (h1 : dateLe a b = true)
    (h2 : dateLe b a = true) : a = b := by
  rw [dateLe_iff] at *
  cases a
  cases b
  simp_all
  omega

theorem foldl_minStep_le (l : List Date) :
    ∀ (a d : Date), (d = a ∨ d ∈ l) →
      dateLe (l.foldl (fun x b => if dateLe b x ∧ ¬dateLe x b then b else x) a) d
        = true := by
  induction l with
  | nil =>
    intro a d hd
    rcases hd with h | h
    · subst h
      exact dateLe_refl d
    · cases h
  | cons b l ih =>
    intro a d hd
    have step :
        (b :: l).foldl (fun x c => if dateLe c x ∧ ¬dateLe x c then c else x) a =
          l.foldl (fun x c => if dateLe c x ∧ ¬dateLe x c then c else x)
            (if dateLe b a ∧ ¬dateLe a b then b else a) := rfl
    rw [step]
    by_cases hba : dateLe b a = true ∧ ¬dateLe a b = true
    · rw [if_pos hba]
      have h1 := ih b b (Or.inl rfl)
      rcases hd with h | h
      · subst h
        exact dateLe_trans h1 hba.1
      · rcases List.mem_cons.mp h with h' | h'
        · subst h'
          exact h1
        · exact ih b d (Or.inr h')
    · rw [if_neg hba]
      have h1 := ih a a (Or.inl rfl)
      rcases hd with h | h
      · subst h
        exact h1
      · rcases List.mem_cons.mp h with h' | h'
        · subst h'
          have hab : dateLe a d = true := by
            rcases dateLe_total a d with h2 | h2
            · exact h2
            · rcases Decidable.em (dateLe a d = true) with h3 | h3
              · exact h3
              · exact absurd ⟨h2, h3⟩ hba
          exact dateLe_trans h1 hab
        · exact ih a d (Or.inr h')

theorem minDate_le (l : List Date) (d : Date) (hd : d ∈ l) :
    dateLe (minDate l) d = true := by
  cases l with
  | nil => cases hd
  | cons a l =>
    rcases List.mem_cons.mp hd with h | h
    · exact foldl_minStep_le l a d (Or.inl h)
    · exact foldl_minStep_le l a d (Or.inr h)

theorem foldl_maxStep_ge (l : List Date) :
    ∀ (a d : Date), (d = a ∨ d ∈ l) →
      dateLe d (l.foldl (fun x b => if dateLe x b ∧ ¬dateLe b x then b else x) a)
        = true := by
  induction l with
  | nil =>
    intro a d hd
    rcases hd with h | h
    · subst h
      exact dateLe_refl d
    · cases h
  | cons b l ih =>
    intro a d hd
    have step :
        (b :: l).foldl (fun x c => if dateLe x c ∧ ¬dateLe c x then c else x) a =
          l.foldl (fun x c => if dateLe x c ∧ ¬dateLe c x then c else x)
            (if dateLe a b ∧ ¬dateLe b a then b else a) := rfl
    rw [step]
    by_cases hab : dateLe a b = true ∧ ¬dateLe b a = true
    · rw [if_pos hab]
      have h1 := ih b b (Or.inl rfl)
      rcases hd with h | h
      · subst h
        exact dateLe_trans hab.1 h1
      · rcases List.mem_cons.mp h with h' | h'
        · subst h'
          exact h1
        · exact ih b d (Or.inr h')
    · rw [if_neg hab]
      have h1 := ih a a (Or.inl rfl)
      rcases hd with h | h
      · subst h
        exact h1
      · rcases List.mem_cons.mp h with h' | h'
        · subst h'
          have hba : dateLe d a = true := by
            rcases dateLe_total a d with h2 | h2
            · rcases Decidable.em (dateLe d a = true) with h3 | h3
              · exact h3
              · exact absurd ⟨h2, h3⟩ hab
            · exact h2
          exact dateLe_trans hba h1
        · exact ih a d (Or.inr h')

theorem le_maxDate (l : List Date) (d : Date) (hd : d ∈ l) :
    dateLe d (maxDate l) = true := by
  cases l with
  | nil => cases hd
  | cons a l =>
    rcases List.mem_cons.mp hd with h | h
    · exact foldl_maxStep_ge l a d (Or.inl h)
    · exact foldl_maxStep_ge l a d (Or.inr h)

/-- Claim C6: a record passes the date filter exactly when
`start_date <= record.date <= end_date` (both inclusive); with both
bounds equal to one day the filter returns exactly that day's records;
omitted bounds default to the store's earliest/latest dates, so the
default filter keeps every record. -/
theorem date_filter_inclusive (recs : List Record) (s e d : Date) (r : Record) :
    (r ∈ filterDates recs s e ↔
      r ∈ recs ∧ (dateLe s r.date = true ∧ dateLe r.date e = true))
    ∧ (r ∈ filterDates recs d d ↔ r ∈ recs ∧ r.date = d)
    ∧ filterWithDefaults recs none none = recs := by
  refine ⟨?_, ?_, ?_⟩
  · simp [filterDates, List.mem_filter]
  · rw [filterDates, List.mem_filter]
    constructor
    · rintro ⟨hr, hb⟩
      rcases Bool.and_eq_true _ _ |>.mp hb with ⟨h1, h2⟩
      exact ⟨hr, dateLe_antisymm h2 h1⟩
    · rintro ⟨hr, rfl⟩
      exact ⟨hr, by simp [dateLe_refl]⟩
  · rw [filterWithDefaults]
    simp only [Option.getD_none]
    rw [filterDates]
    apply List.filter_eq_self.mpr
    intro r hr
    have hmem : r.date ∈ recs.map (·.date) := List.mem_map_of_mem _ hr
    simp [minDate_le _ _ hmem, le_maxDate _ _ hmem]

/-- Claim C3: after fence-based flagging, a record is returned exactly
when it is flagged and its description occurs exactly once among the
flagged rows (`drop_duplicates(subset="Description", keep=False)`). -/
theorem suspicious_unique_description (recs : List Record) (r : Record) :
    r ∈ suspiciousCharges recs ↔
      r ∈ flaggedSet recs ∧
        ((flaggedSet recs).filter
          (fun s => s.description == r.description)).length = 1 := by
  simp [suspiciousCharges, dropDupDesc, List.mem_filter]

/-- Claim C1: a record of the scanned set is flagged exactly when its
amount is strictly below the lower outer fence (any transaction type),
or strictly above the upper outer fence and its transaction type is
"debit"; in particular the upper-fence check never flags a credit. -/
theorem flag_rule_asymmetric (recs : List Record) (r : Record) (hr : r ∈ recs) :
    (r ∈ flaggedSet recs ↔
      (r.amount < lowerFence recs ∨
        (upperFence recs < r.amount ∧ r.ttype = "debit")))
    ∧ (r.ttype = "credit" →
        (r ∈ flaggedSet recs ↔ r.amount < lowerFence recs)) := by
  have hne : recs.isEmpty = false := by
    cases recs
    · cases hr
    · rfl
  constructor
  · rw [flaggedSet, List.mem_filter]
    simp [flagPred, hne, hr]
  · intro hc
    rw [flaggedSet, List.mem_filter]
    simp [flagPred, hne, hr, hc]

set_option maxRecDepth 10000 in
theorem flag_rule_asymmetric_witness :
    wRecC1 ∈ wRecsC1 ∧
      ((wRecC1 ∈ flaggedSet wRecsC1 ↔
        (wRecC1.amount < lowerFence wRecsC1 ∨
          (upperFence wRecsC1 < wRecC1.amount ∧ wRecC1.ttype = "debit")))
      ∧ (wRecC1.ttype = "credit" →
          (wRecC1 ∈ flaggedSet wRecsC1 ↔ wRecC1.amount < lowerFence wRecsC1))) :=
  ⟨by with_unfolding_all decide,
   flag_rule_asymmetric wRecsC1 wRecC1 (by with_unfolding_all decide)⟩

/-- Claim C2 (amended): with at least one credit row and one debit row,
`financial_advice` computes `net_total = int(credits) - int(debits)`
(each total truncated toward zero, not an exact decimal) and classifies
it NEGATIVE / ZERO / POSITIVE by its sign. -/
theorem financial_advice_truncates (recs : List Record)
    (hc : recs.filter (fun r => r.ttype == "credit") ≠ [])
    (hd : recs.filter (fun r => r.ttype == "debit") ≠ []) :
    financialAdvice recs =
      some (netTotal recs,
        if netTotal recs < 0 then Verdict.negative
        else if netTotal recs = 0 then Verdict.zero else Verdict.positive)
    ∧ (netTotal recs < 0 →
        (financialAdvice recs).map (·.2) = some Verdict.negative)
    ∧ (netTotal recs = 0 →
        (financialAdvice recs).map (·.2) = some Verdict.zero)
    ∧ (0 < netTotal recs →
        (financialAdvice recs).map (·.2) = some Verdict.positive) := by
  have h1 : financialAdvice recs =
      some (netTotal recs,
        if netTotal recs < 0 then Verdict.negative
        else if netTotal recs = 0 then Verdict.zero else Verdict.positive) := by
    have hcm :
        ((recs.filter (fun r => r.ttype == "credit")).map (·.amount)).isEmpty
          = false := by
      cases hfilter : recs.filter (fun r => r.ttype == "credit") with
      | nil => exact absurd hfilter hc
      | cons x xs => rfl
    have hdm :
        ((recs.filter (fun r => r.ttype == "debit")).map (·.amount)).isEmpty
          = false := by
      cases hfilter : recs.filter (fun r => r.ttype == "debit") with
      | nil => exact absurd hfilter hd
      | cons x xs => rfl
    simp [financialAdvice, hcm, hdm, netTotal, creditSum, debitSum]
  refine ⟨h1, ?_, ?_, ?_⟩
  · intro hneg
    rw [h1]
    simp [if_pos hneg]
  · intro hz
    rw [h1]
    simp [hz]
  · intro hpos
    rw [h1]
    have : ¬ netTotal recs < 0 := by omega
    have : netTotal recs ≠ 0 := by omega
    simp_all

theorem financial_advice_truncates_witness :
    (wRecsC2.filter (fun r => r.ttype == "credit") ≠ [] ∧
     wRecsC2.filter (fun r => r.ttype == "debit") ≠ []) ∧
    (financialAdvice wRecsC2 =
      some (netTotal wRecsC2,
        if netTotal wRecsC2 < 0 then Verdict.negative
        else if netTotal wRecsC2 = 0 then Verdict.zero else Verdict.positive)
    ∧ (netTotal wRecsC2 < 0 →
        (financialAdvice wRecsC2).map (·.2) = some Verdict.negative)
    ∧ (netTotal wRecsC2 = 0 →
        (financialAdvice wRecsC2).map (·.2) = some Verdict.zero)
    ∧ (0 < netTotal wRecsC2 →
        (financialAdvice wRecsC2).map (·.2) = some Verdict.positive)) ∧
    financialAdvice wRecsC2 = some (-200, Verdict.negative) :=
  ⟨⟨by with_unfolding_all decide, by with_unfolding_all decide⟩,
   financial_advice_truncates wRecsC2 (by with_unfolding_all decide)
     (by with_unfolding_all decide),
   by with_unfolding_all decide⟩

/-- Claim C2 fails as stated: on a credit total of 100.7 and a debit
total of 100 the exact net is 0.7 (claim: POSITIVE), but truncation
gives `net_total = 0` and verdict ZERO. -/
theorem financial_advice_exact_decimal_cex :
    financialAdvice cexRecsC2 = some (0, Verdict.zero) ∧
      (0 : ℚ) < creditSum cexRecsC2 - debitSum cexRecsC2 := by
  with_unfolding_all decide

/-- Claim C9: no analyzer call mutates the `Bookkeeper` state — the
record table and the derived earliest/latest bounds are returned
unchanged, and repeating an analyzer after another one yields the same
output. -/
theorem analyzers_read_only (s : Store) (g : Gran) (q : String)
    (sd ed : Option Date) :
    ((dayOfWeekSummaryOp s sd ed).2 = s ∧
     (compareSpendingsOp s g sd ed).2 = s ∧
     (spendingCategoryFrequencyOp s sd ed).2 = s ∧
     (searchTransactionsOp s q sd ed).2 = s ∧
     (suspiciousChargesOp s sd ed).2 = s)
    ∧ ((dayOfWeekSummaryOp s sd ed).2.records = s.records ∧
       (dayOfWeekSummaryOp s sd ed).2.earliest = s.earliest ∧
       (dayOfWeekSummaryOp s sd ed).2.latest = s.latest)
    ∧ ((dayOfWeekSummaryOp ((compareSpendingsOp s g sd ed).2) sd ed).1 =
         (dayOfWeekSummaryOp s sd ed).1 ∧
       (compareSpendingsOp ((dayOfWeekSummaryOp s sd ed).2) g sd ed).1 =
         (compareSpendingsOp s g sd ed).1 ∧
       (spendingCategoryFrequencyOp ((spendingCategoryFrequencyOp s sd ed).2)
           sd ed).1 =
         (spendingCategoryFrequencyOp s sd ed).1 ∧
       (searchTransactionsOp ((searchTransactionsOp s q sd ed).2) q sd ed).1 =
         (searchTransactionsOp s q sd ed).1) :=
  ⟨⟨rfl, rfl, rfl, rfl, rfl⟩, ⟨rfl, rfl, rfl⟩, ⟨rfl, rfl, rfl, rfl⟩⟩

theorem lookupStr_map (f : String → List Record) :
    ∀ (xs : List String) (a : String), a ∈ xs →
      lookupStr a (xs.map (fun x => (x, f x))) = some (f a) := by
  intro xs
  induction xs with
  | nil =>
    intro a ha
    cases ha
  | cons x xs ih =>
    intro a ha
    rcases List.mem_cons.mp ha with h | h
    · subst h
      simp [lookupStr]
    · by_cases hx : (x == a) = true
      · have hxa : x = a := by simpa using hx
        subst hxa
        simp [lookupStr]
      · simp only [List.map_cons, lookupStr, hx, if_false, Bool.false_eq_true]
        exact ih a h

/-- Claim C10: with no account specified, `suspicious_charges`
deterministically scans every distinct account name (in order of first
occurrence, never a random pick), and each account's result is computed
by the fence/flag/dedup pipeline from only that account's date-filtered
records. -/
theorem suspicious_per_account (recs : List Record) (s e : Date) (a : String)
    (ha : a ∈ uniqueFirst [] (recs.map (·.account))) :
    lookupStr a (suspiciousAllAccounts recs s e) =
      some (suspiciousCharges (recs.filter (fun r =>
        (r.account == a) && (dateLe s r.date && dateLe r.date e))))
    ∧ (suspiciousAllAccounts recs s e).map (·.1) =
        uniqueFirst [] (recs.map (·.account)) := by
  constructor
  · exact lookupStr_map _ _ a ha
  · rw [suspiciousAllAccounts, List.map_map]
    simp [Function.comp_def]

theorem suspicious_per_account_witness :
    ("Y" ∈ uniqueFirst [] (wRecsC10.map (·.account))) ∧
    (lookupStr ("Y") (suspiciousAllAccounts wRecsC10 ⟨2020, 4, 1⟩ ⟨2020, 4, 30⟩) =
      some (suspiciousCharges (wRecsC10.filter (fun r =>
        (r.account == "Y") &&
          (dateLe ⟨2020, 4, 1⟩ r.date && dateLe r.date ⟨2020, 4, 30⟩))))
    ∧ (suspiciousAllAccounts wRecsC10 ⟨2020, 4, 1⟩ ⟨2020, 4, 30⟩).map (·.1) =
        uniqueFirst [] (wRecsC10.map (·.account))) :=
  ⟨by with_unfolding_all decide,
   suspicious_per_account wRecsC10 ⟨2020, 4, 1⟩ ⟨2020, 4, 30⟩ ("Y")
     (by with_unfolding_all decide)⟩

/-- Claim C4 (amended): the day-of-week summary always has exactly the
seven weekday keys Monday…Sunday in fixed order, and for a weekday with
zero matching transactions all five statistics are NaN (pandas
aggregations over an empty group), not zero. -/
theorem day_of_week_coverage (recs : List Record) (day : String) (st : DayStats)
    (hmem : (day, st) ∈ dayOfWeekSummary recs)
    (hempty : recs.filter (fun r => weekdayName r.date == day) = []) :
    ((dayOfWeekSummary recs).map (·.1) = daysList) ∧ st = nanStats := by
  constructor
  · rw [dayOfWeekSummary, List.map_map]
    simp [Function.comp_def]
  · rw [dayOfWeekSummary] at hmem
    rcases List.mem_map.mp hmem with ⟨d, hd, heq⟩
    simp only [Prod.mk.injEq] at heq
    rcases heq with ⟨hday, hst⟩
    subst hday
    rw [hempty] at hst
    rw [← hst]
    rfl

set_option maxRecDepth 10000 in
theorem day_of_week_coverage_witness :
    (("Monday", nanStats) ∈ dayOfWeekSummary ([] : List Record) ∧
      ([] : List Record).filter (fun r => weekdayName r.date == "Monday") = []) ∧
    (((dayOfWeekSummary ([] : List Record)).map (·.1) = daysList) ∧
      nanStats = nanStats) :=
  ⟨⟨by with_unfolding_all decide, rfl⟩,
   day_of_week_coverage [] "Monday" nanStats (by with_unfolding_all decide) rfl⟩

set_option maxRecDepth 10000 in
/-- Claim C4 fails as stated: on an empty record set every weekday has
zero matching transactions, yet the five statistics are NaN, not 0. -/
theorem day_of_week_zero_stats_cex :
    dayOfWeekSummary ([] : List Record) = daysList.map (fun d => (d, nanStats))
    ∧ PFloat.nan ≠ PFloat.num 0 := by
  with_unfolding_all decide

theorem pctTail_get (ts : List ℚ) :
    ∀ (p : ℚ) (i : ℕ), i < ts.length →
      (pctTail p ts)[i]? = some (pctPair ((p :: ts).getD i 0) (ts.getD i 0)) := by
  induction ts with
  | nil =>
    intro p i h
    cases h
  | cons c cs ih =>
    intro p i h
    cases i with
    | zero => simp [pctTail, List.getD]
    | succ i =>
      have h' : i < cs.length := by simpa using h
      simpa [pctTail, List.getD] using ih c i h'

theorem pctChangeCol_get (l : List ℚ) (i : ℕ) (h : i + 1 < l.length) :
    (pctChangeCol l)[i+1]? = some (pctPair (l.getD i 0) (l.getD (i+1) 0)) := by
  cases l with
  | nil => cases h
  | cons t ts =>
    have h' : i < ts.length := by simpa using h
    simp only [pctChangeCol, List.getElem?_cons_succ]
    rw [pctTail_get ts t i h']
    simp

theorem pctTail_length (ts : List ℚ) :
    ∀ p : ℚ, (pctTail p ts).length = ts.length := by
  induction ts with
  | nil => intro p; rfl
  | cons c cs ih =>
    intro p
    simp [pctTail, ih c]

theorem pctChangeCol_length (l : List ℚ) :
    (pctChangeCol l).length = l.length := by
  cases l with
  | nil => rfl
  | cons t ts => simp [pctChangeCol, pctTail_length ts t]

theorem zipWith_third (tt : List (ℕ × ℚ)) :
    ∀ cc : List PFloat, cc.length = tt.length →
      (List.zipWith (fun kt c => (kt.1, kt.2, c)) tt cc).map (·.2.2) = cc := by
  induction tt with
  | nil =>
    intro cc h
    rw [List.length_nil, List.length_eq_zero] at h
    subst h
    rfl
  | cons kt tt ih =>
    intro cc h
    cases cc with
    | nil => simp at h
    | cons c cc =>
      simp only [List.zipWith_cons_cons, List.map_cons]
      rw [ih cc (by simpa using h)]

theorem changeCol_eq (recs : List Record) (g : Gran) :
    changeCol recs g = pctChangeCol (totalsCol recs g) := by
  rw [changeCol, compareSpendings, totalsCol]
  exact zipWith_third _ _ (by rw [pctChangeCol_length]; simp)

theorem natSortedAsc_insert (x : ℕ) :
    ∀ l : List ℕ, natSortedAsc l = true → natSortedAsc (insertNat x l) = true := by
  intro l
  induction l with
  | nil =>
    intro _
    rfl
  | cons y ys ih =>
    intro h
    rw [insertNat]
    by_cases hyx : y ≤ x
    · rw [if_pos hyx]
      cases ys with
      | nil => simp [insertNat, natSortedAsc, hyx]
      | cons z zs =>
        have hpair : y ≤ z ∧ natSortedAsc (z :: zs) = true := by
          simpa [natSortedAsc] using h
        have hins : natSortedAsc (insertNat x (z :: zs)) = true :=
          ih hpair.2
        rw [insertNat] at hins ⊢
        by_cases hzx : z ≤ x
        · rw [if_pos hzx] at hins ⊢
          simpa [natSortedAsc, hpair.1] using hins
        · rw [if_neg hzx] at hins ⊢
          have hxz : x ≤ z := by omega
          simp [natSortedAsc, hyx, hxz, hpair.1, hpair.2]
    · rw [if_neg hyx]
      have hxy : x ≤ y := by omega
      simpa [natSortedAsc, hxy] using h

theorem natSortedAsc_fold (l : List ℕ) :
    ∀ acc : List ℕ, natSortedAsc acc = true →
      natSortedAsc (l.foldl (fun a x => insertNat x a) acc) = true := by
  induction l with
  | nil =>
    intro acc h
    exact h
  | cons x xs ih =>
    intro acc h
    exact ih (insertNat x acc) (natSortedAsc_insert x acc h)

theorem dedupNats_cons (y : ℕ) :
    ∀ r : List ℕ, ∃ t, dedupNats (y :: r) = y :: t := by
  intro r
  induction r generalizing y with
  | nil => exact ⟨[], rfl⟩
  | cons z zs ih =>
    rw [dedupNats]
    by_cases hyz : (y == z) = true
    · have heq : y = z := by simpa using hyz
      subst heq
      rw [if_pos hyz]
      exact ih y
    · rw [if_neg (by simpa using hyz)]
      exact ⟨dedupNats (z :: zs), rfl⟩

theorem natSortedAsc_dedup :
    ∀ l : List ℕ, natSortedAsc l = true → natSortedAsc (dedupNats l) = true := by
  intro l
  induction l with
  | nil =>
    intro _
    rfl
  | cons y ys ih =>
    intro h
    cases ys with
    | nil => exact h
    | cons z zs =>
      have hpair : y ≤ z ∧ natSortedAsc (z :: zs) = true := by
        simpa [natSortedAsc] using h
      have htail : natSortedAsc (dedupNats (z :: zs)) = true := ih hpair.2
      rw [dedupNats]
      by_cases hyz : (y == z) = true
      · rw [if_pos hyz]
        exact htail
      · rw [if_neg (by simpa using hyz)]
        rcases dedupNats_cons z zs with ⟨t, ht⟩
        rw [ht] at htail ⊢
        simpa [natSortedAsc, hpair.1] using htail

/-- Claim C5 (amended): in `compare_spendings` the period keys are in
chronological order, the earliest period's percent change is NaN, and
every later entry equals `pct_change` of the adjacent totals:
`(current - previous)/previous` when the previous total is nonzero, and
±infinity or NaN (float division by zero, not null and not an error)
when the previous total is zero. -/
theorem period_pct_change (recs : List Record) (g : Gran) (i : ℕ)
    (h : i + 1 < (totalsCol recs g).length) :
    (changeCol recs g)[0]? = some PFloat.nan
    ∧ (changeCol recs g)[i+1]? =
        some (pctPair ((totalsCol recs g).getD i 0)
          ((totalsCol recs g).getD (i+1) 0))
    ∧ ((totalsCol recs g).getD i 0 ≠ 0 →
        (changeCol recs g)[i+1]? =
          some (PFloat.num
            (((totalsCol recs g).getD (i+1) 0 - (totalsCol recs g).getD i 0) /
              (totalsCol recs g).getD i 0)))
    ∧ ((totalsCol recs g).getD i 0 = 0 →
        ((changeCol recs g)[i+1]? = some PFloat.inf ∨
         (changeCol recs g)[i+1]? = some PFloat.ninf ∨
         (changeCol recs g)[i+1]? = some PFloat.nan))
    ∧ natSortedAsc ((periodTotals recs g).map (·.1)) = true := by
  have hcol := changeCol_eq recs g
  have hget := pctChangeCol_get (totalsCol recs g) i h
  refine ⟨?_, ?_, ?_, ?_, ?_⟩
  · rw [hcol]
    cases hT : totalsCol recs g with
    | nil => rw [hT] at h; cases h
    | cons t ts => simp [pctChangeCol]
  · rw [hcol]
    exact hget
  · intro hp
    rw [hcol, hget]
    unfold pctPair
    rw [if_neg hp]
  · intro hp
    rw [hcol, hget]
    unfold pctPair
    rw [if_pos hp]
    rcases lt_trichotomy (0 : ℚ) ((totalsCol recs g).getD (i+1) 0) with hc | hc | hc
    · left
      rw [if_pos hc]
    · right; right
      rw [if_neg (hc ▸ lt_irrefl 0), if_neg (hc ▸ lt_irrefl 0)]
    · right; left
      rw [if_neg (not_lt.mpr hc.le), if_pos hc]
  · rw [periodTotals, List.map_map]
    simp only [Function.comp_def]
    have hfold : natSortedAsc
        ((recs.map (periodKey g)).foldl (fun a x => insertNat x a) []) = true :=
      natSortedAsc_fold _ [] rfl
    have hded := natSortedAsc_dedup _ hfold
    simpa using hded

set_option maxRecDepth 10000 in
theorem period_pct_change_witness :
    (0 + 1 < (totalsCol wRecsC5 Gran.month).length) ∧
    ((changeCol wRecsC5 Gran.month)[0]? = some PFloat.nan
    ∧ (changeCol wRecsC5 Gran.month)[0+1]? =
        some (pctPair ((totalsCol wRecsC5 Gran.month).getD 0 0)
          ((totalsCol wRecsC5 Gran.month).getD (0+1) 0))
    ∧ ((totalsCol wRecsC5 Gran.month).getD 0 0 ≠ 0 →
        (changeCol wRecsC5 Gran.month)[0+1]? =
          some (PFloat.num
            (((totalsCol wRecsC5 Gran.month).getD (0+1) 0 -
                (totalsCol wRecsC5 Gran.month).getD 0 0) /
              (totalsCol wRecsC5 Gran.month).getD 0 0)))
    ∧ ((totalsCol wRecsC5 Gran.month).getD 0 0 = 0 →
        ((changeCol wRecsC5 Gran.month)[0+1]? = some PFloat.inf ∨
         (changeCol wRecsC5 Gran.month)[0+1]? = some PFloat.ninf ∨
         (changeCol wRecsC5 Gran.month)[0+1]? = some PFloat.nan))
    ∧ natSortedAsc ((periodTotals wRecsC5 Gran.month).map (·.1)) = true) ∧
    changeCol wRecsC5 Gran.month = [PFloat.nan, PFloat.num (1 / 2)] :=
  ⟨by with_unfolding_all decide,
   period_pct_change wRecsC5 Gran.month 0 (by with_unfolding_all decide),
   by with_unfolding_all decide⟩

set_option maxRecDepth 10000 in
/-- Claim C5 fails as stated: with period totals `[0, 100]` the second
period's percent change is +infinity (float division by zero), not
undefined/null. -/
theorem period_pct_change_zero_cex :
    changeCol cexRecsC5 Gran.month = [PFloat.nan, PFloat.inf]
    ∧ PFloat.inf ≠ PFloat.nan := by
  with_unfolding_all decide

theorem mem_insertDesc (x a : String × ℕ) :
    ∀ l, a ∈ insertDesc x l ↔ a = x ∨ a ∈ l := by
  intro l
  induction l with
  | nil => simp [insertDesc]
  | cons y ys ih =>
    rw [insertDesc]
    by_cases hxy : x.2 ≤ y.2
    · rw [if_pos hxy]
      simp only [List.mem_cons, ih]
      try tauto
    · rw [if_neg hxy]
      simp only [List.mem_cons]
      try tauto

theorem mem_sortFold (l : List (String × ℕ)) :
    ∀ (acc : List (String × ℕ)) (a : String × ℕ),
      a ∈ l.foldl (fun acc x => insertDesc x acc) acc ↔ a ∈ acc ∨ a ∈ l := by
  induction l with
  | nil =>
    intro acc a
    simp
  | cons x xs ih =>
    intro acc a
    rw [List.foldl_cons, ih (insertDesc x acc) a, mem_insertDesc]
    simp only [List.mem_cons]
    tauto

theorem length_insertDesc (x : String × ℕ) :
    ∀ l, (insertDesc x l).length = l.length + 1 := by
  intro l
  induction l with
  | nil => rfl
  | cons y ys ih =>
    rw [insertDesc]
    by_cases hxy : x.2 ≤ y.2
    · rw [if_pos hxy]
      simp [ih]
    · rw [if_neg hxy]
      rfl

theorem length_sortFold (l : List (String × ℕ)) :
    ∀ acc, (l.foldl (fun acc x => insertDesc x acc) acc).length =
      acc.length + l.length := by
  induction l with
  | nil =>
    intro acc
    rfl
  | cons x xs ih =>
    intro acc
    rw [List.foldl_cons, ih (insertDesc x acc), length_insertDesc,
      List.length_cons]
    omega

theorem sorted_insertDesc (x : String × ℕ) :
    ∀ l, sortedByCountDesc l = true → sortedByCountDesc (insertDesc x l) = true := by
  intro l
  induction l with
  | nil =>
    intro _
    rfl
  | cons y ys ih =>
    intro h
    rw [insertDesc]
    by_cases hxy : x.2 ≤ y.2
    · rw [if_pos hxy]
      cases ys with
      | nil => simp [insertDesc, sortedByCountDesc, hxy]
      | cons z zs =>
        have hpair : z.2 ≤ y.2 ∧ sortedByCountDesc (z :: zs) = true := by
          simpa [sortedByCountDesc] using h
        have hins : sortedByCountDesc (insertDesc x (z :: zs)) = true :=
          ih hpair.2
        rw [insertDesc] at hins ⊢
        by_cases hzx : x.2 ≤ z.2
        · rw [if_pos hzx] at hins ⊢
          simpa [sortedByCountDesc, hpair.1] using hins
        · rw [if_neg hzx] at hins ⊢
          have hzx' : z.2 ≤ x.2 := by omega
          simp [sortedByCountDesc, hxy, hzx', hpair.1, hpair.2]
    · rw [if_neg hxy]
      have hyx : y.2 ≤ x.2 := by omega
      simpa [sortedByCountDesc, hyx] using h

theorem sorted_sortFold (l : List (String × ℕ)) :
    ∀ acc, sortedByCountDesc acc = true →
      sortedByCountDesc (l.foldl (fun acc x => insertDesc x acc) acc) = true := by
  induction l with
  | nil =>
    intro acc h
    exact h
  | cons x xs ih =>
    intro acc h
    exact ih (insertDesc x acc) (sorted_insertDesc x acc h)

theorem sorted_take :
    ∀ (l : List (String × ℕ)) (n : ℕ),
      sortedByCountDesc l = true → sortedByCountDesc (l.take n) = true := by
  intro l
  induction l with
  | nil =>
    intro n _
    simp [sortedByCountDesc]
  | cons x xs ih =>
    intro n h
    cases n with
    | zero => rfl
    | succ m =>
      cases xs with
      | nil => cases m <;> rfl
      | cons y ys =>
        have hpair : y.2 ≤ x.2 ∧ sortedByCountDesc (y :: ys) = true := by
          simpa [sortedByCountDesc] using h
        cases m with
        | zero => rfl
        | succ k =>
          have htail : sortedByCountDesc ((y :: ys).take (k + 1)) = true :=
            ih (k + 1) hpair.2
          rw [List.take_succ_cons] at htail ⊢
          rw [List.take_succ_cons]
          simpa [sortedByCountDesc, hpair.1] using htail

theorem mem_dedupAdj :
    ∀ (l : List String) (a : String), a ∈ dedupAdj l → a ∈ l := by
  intro l
  induction l with
  | nil =>
    intro a h
    cases h
  | cons x xs ih =>
    cases xs with
    | nil =>
      intro a h
      exact h
    | cons y ys =>
      intro a h
      rw [dedupAdj] at h
      by_cases hxy : (x == y) = true
      · rw [if_pos hxy] at h
        exact List.mem_cons_of_mem x (ih a h)
      · rw [if_neg hxy] at h
        rcases List.mem_cons.mp h with h' | h'
        · exact h' ▸ List.mem_cons_self x _
        · exact List.mem_cons_of_mem x (ih a h')

theorem mem_insertStr (x a : String) :
    ∀ l, a ∈ insertStr x l ↔ a = x ∨ a ∈ l := by
  intro l
  induction l with
  | nil => simp [insertStr]
  | cons y ys ih =>
    rw [insertStr]
    by_cases hxy : strLeB y x = true
    · rw [if_pos hxy]
      simp only [List.mem_cons, ih]
      try tauto
    · rw [if_neg hxy]
      simp only [List.mem_cons]
      try tauto

theorem mem_strSortFold (l : List String) :
    ∀ (acc : List String) (a : String),
      a ∈ l.foldl (fun acc x => insertStr x acc) acc ↔ a ∈ acc ∨ a ∈ l := by
  induction l with
  | nil =>
    intro acc a
    simp
  | cons x xs ih =>
    intro acc a
    rw [List.foldl_cons, ih (insertStr x acc) a, mem_insertStr]
    simp only [List.mem_cons]
    tauto

theorem mem_sortedCats (recs : List Record) (c : String)
    (hc : c ∈ sortedCats recs) : c ∈ recs.map (·.category) := by
  rw [sortedCats] at hc
  have h1 := mem_dedupAdj _ c hc
  rcases (mem_strSortFold _ [] c).mp h1 with h2 | h2
  · cases h2
  · exact h2

/-- Claim C7 (amended): `spending_category_frequency` returns category /
count rows whose categories occur in the data and whose counts are the
exact occurrence counts, sorted by count descending — but truncated by
`.head(5)` to at most the first five rows (all categories appear only
when at most five are distinct), and the order among tied counts is
whatever the unstable sort leaves. -/
theorem category_frequency_top5 (recs : List Record) (p : String × ℕ)
    (hp : p ∈ spendingCategoryFrequency recs) :
    (p.1 ∈ recs.map (·.category) ∧ p.2 = countCat recs p.1)
    ∧ (spendingCategoryFrequency recs).length = min 5 (sortedCats recs).length
    ∧ sortedByCountDesc (spendingCategoryFrequency recs) = true := by
  have hmem : p ∈ sortCountDesc (crosstabCounts recs) :=
    List.take_subset _ _ hp
  have hmem2 : p ∈ crosstabCounts recs := by
    rcases (mem_sortFold _ [] p).mp hmem with h | h
    · cases h
    · exact h
  rcases List.mem_map.mp hmem2 with ⟨c, hc, hpc⟩
  refine ⟨⟨?_, ?_⟩, ?_, ?_⟩
  · rw [← hpc]
    exact mem_sortedCats recs c hc
  · rw [← hpc]
  · rw [spendingCategoryFrequency, List.length_take, sortCountDesc,
      length_sortFold, crosstabCounts, List.length_map]
    simp
  · exact sorted_take _ 5 (sorted_sortFold _ [] rfl)

set_option maxRecDepth 10000 in
theorem category_frequency_top5_witness :
    (("A", 1) ∈ spendingCategoryFrequency wRecsC7) ∧
    ((("A", 1).1 ∈ wRecsC7.map (·.category) ∧
        ("A", 1).2 = countCat wRecsC7 ("A", 1).1)
    ∧ (spendingCategoryFrequency wRecsC7).length = min 5 (sortedCats wRecsC7).length
    ∧ sortedByCountDesc (spendingCategoryFrequency wRecsC7) = true) :=
  ⟨by with_unfolding_all decide,
   category_frequency_top5 wRecsC7 ("A", 1) (by with_unfolding_all decide)⟩

set_option maxRecDepth 10000 in
/-- Claim C7 fails as stated: with six distinct categories the
`.head(5)` truncation drops an occurring category ("F"), so the result
does not contain all categories. -/
theorem category_frequency_truncated_cex :
    ("F" ∈ wRecsC7.map (·.category)) ∧
    (spendingCategoryFrequency wRecsC7).map (·.1) = ["A", "B", "C", "D", "E"] ∧
    ¬ ("F" ∈ (spendingCategoryFrequency wRecsC7).map (·.1)) := by
  with_unfolding_all decide

theorem matchHere_lit (L : List Char) :
    ∀ txt : List Char, matchHere (L.map RTok.lit) txt = prefixOfChars L txt := by
  induction L with
  | nil =>
    intro txt
    rfl
  | cons c cs ih =>
    intro txt
    cases txt with
    | nil => rfl
    | cons d ds => simp [matchHere, prefixOfChars, ih ds]

theorem reSearch_lit (L : List Char) :
    ∀ txt : List Char, reSearch (L.map RTok.lit) txt = containsSub L txt := by
  intro txt
  induction txt with
  | nil => simp [reSearch, containsSub, matchHere_lit]
  | cons c cs ih => simp [reSearch, containsSub, matchHere_lit, ih]

theorem parsePat_noDot (L : List Char) (h : ∀ c ∈ L, ¬ c = '.') :
    parsePat L = L.map RTok.lit := by
  rw [parsePat]
  apply List.map_congr_left
  intro c hc
  have hb : (c == '.') = false := beq_eq_false_iff_ne.mpr (h c hc)
  rw [hb]
  rfl

/-- Claim C8 (amended): the query is handed to `Series.str.contains`
with its default `regex = True`, so it is matched as a case-insensitive
regular expression; for queries free of regex metacharacters this
coincides with case-insensitive substring containment, and an empty
match set is a valid non-error result. -/
theorem search_case_insensitive_substring (recs : List Record) (q : String)
    (h : noMeta (lowerChars q.toList) = true) :
    searchTransactions recs q =
      recs.filter (fun r =>
        containsSub (lowerChars q.toList) (lowerChars r.description.toList)) := by
  rw [searchTransactions]
  apply List.filter_congr
  intro r _
  have hP : parsePat (lowerChars q.toList) = (lowerChars q.toList).map RTok.lit := by
    apply parsePat_noDot
    intro c hc
    have hcm := (List.all_eq_true.mp h) c hc
    have hnm : ¬ c ∈ metaChars := by simpa using hcm
    intro hceq
    exact hnm (hceq ▸ (by decide : ('.' : Char) ∈ metaChars))
  rw [hP, reSearch_lit]

set_option maxRecDepth 10000 in
theorem search_case_insensitive_substring_witness :
    (noMeta (lowerChars ("spotify").toList) = true) ∧
    (searchTransactions wRecsC8 ("spotify") =
      wRecsC8.filter (fun r =>
        containsSub (lowerChars ("spotify").toList)
          (lowerChars r.description.toList))) ∧
    searchTransactions wRecsC8 ("spotify") = wRecsC8 :=
  ⟨by with_unfolding_all decide,
   search_case_insensitive_substring wRecsC8 ("spotify")
     (by with_unfolding_all decide),
   by with_unfolding_all decide⟩

set_option maxRecDepth 10000 in
/-- Claim C8 fails as stated: the query "a.c" is treated as a regex, so
the record described "abc" is returned although its description does not
contain the literal substring "a.c". -/
theorem search_regex_not_substring_cex :
    searchTransactions cexRecsC8 ("a.c") = cexRecsC8 ∧
    cexRecsC8.filter (fun r =>
      containsSub (lowerChars ("a.c").toList)
        (lowerChars r.description.toList)) = [] := by
  with_unfolding_all decide
